import Mathlib

/-
Shallow embedding of the Nomination Whist simulator (src/nomination-whist.py).

Conventions of the embedding:
  * Python strings stay Lean String values; `str.upper()` is modelled by
    `strUpper` (character-wise ASCII uppercasing).
  * Fallible Python operations (KeyError on a dict, IndexError on
    `list.pop()` of an empty list, AttributeError on `None.suit`) are
    modelled with Option: `none` is the raised exception.
  * `random.randint(a, b)` and `random.shuffle` draw from explicit oracle
    parameters: `randint a b r` consumes one oracle value `r`, and the
    per-round shuffle is a function `shuffles : Nat → List Card → List Card`
    applied to the fresh deck of that round.
  * Mutation of `self` / aliased player objects becomes explicit state
    passing: each method returns the updated objects it mutated.
-/

/-- Model of Python `str.upper()` for the ASCII strings this program uses:
uppercase every character. -/
def strUpper (s : String) : String := ⟨s.data.map Char.toUpper⟩

/-- Card object: `rank` and `suit` strings plus the derived numeric `value`
(`Card.__init__` stores `self.value = RANK_VALUES[rank]`). -/
structure Card where
  rank : String
  suit : String
  value : Nat
deriving DecidableEq

/-- The `Card.RANK_VALUES` dict, as an association list in source order. -/
def Card.RANK_VALUES : List (String × Nat) :=
  [("2", 2), ("3", 3), ("4", 4), ("5", 5), ("6", 6), ("7", 7), ("8", 8),
   ("9", 9), ("10", 10), ("J", 11), ("Q", 12), ("K", 13), ("A", 14)]

/-- `Card.__init__(rank, suit)`: stores the rank, the uppercased suit and the
value looked up in `RANK_VALUES`; a rank outside the dict raises KeyError,
modelled as `none`. -/
def Card.make (rank suit : String) : Option Card :=
  (Card.RANK_VALUES.lookup rank).map fun v =>
    { rank := rank, suit := strUpper suit, value := v }

/-- The local `ranks` list of `Deck.generate_deck`. -/
def ranks : List String :=
  ["2", "3", "4", "5", "6", "7", "8", "9", "10", "J", "Q", "K", "A"]

/-- The local `suits` list of `Deck.generate_deck`. -/
def suits : List String := ["S", "D", "C", "H"]

/-- Deck object: just its list of cards.  The Python `Deck.__init__` sets
`self.cards = self.generate_deck()`. -/
structure Deck where
  cards : List Card
deriving DecidableEq

/-- `Deck.generate_deck`: the comprehension
`[Card(rank, suit) for suit in suits for rank in ranks]` (suit outer loop,
rank inner loop).  Every rank is a key of `RANK_VALUES`, so the
`filterMap` drops nothing. -/
def Deck.generate_deck : List Card :=
  suits.flatMap fun suit => ranks.filterMap fun rank => Card.make rank suit

/-- Python `list.pop()` on the deck's card list: removes and returns the
LAST element; `none` models the IndexError raised on an empty list. -/
def pop_card (cs : List Card) : Option (Card × List Card) :=
  match cs.getLast? with
  | none => none
  | some c => some (c, cs.dropLast)

/-- The list comprehension `[self.cards.pop() for _ in range(k)]` after `k`
has been fixed: pops `k` times from the end, collecting the results in pop
order.  The caller always passes `k ≤ cs.length`, so the `none` branch of
`pop_card` is unreachable there (mirrored by returning what was popped so
far). -/
def pop_many : Nat → List Card → List Card × List Card
  | 0, cs => ([], cs)
  | Nat.succ k, cs =>
    match pop_card cs with
    | none => ([], cs)
    | some cd =>
      let res := pop_many k cd.2
      (cd.1 :: res.1, res.2)

/-- `Deck.draw` returns a bare Card when `num_cards == 1` and a list
otherwise; this sum type records which shape came back. -/
inductive DrawResult where
  | one : Card → DrawResult
  | many : List Card → DrawResult
deriving DecidableEq

/-- The `num_cards == 1` path of `Deck.draw` (also the default-argument
call `deck.draw()`): `return self.cards.pop()`, IndexError (`none`) on an
empty deck. -/
def Deck.draw_one (d : Deck) : Option (Card × Deck) :=
  (pop_card d.cards).map fun cd => (cd.1, ⟨cd.2⟩)

/-- `Deck.draw(num_cards)`: single pop for `num_cards == 1`, otherwise
`[self.cards.pop() for _ in range(min(num_cards, len(self.cards)))]`. -/
def Deck.draw (d : Deck) (num_cards : Nat) : Option (DrawResult × Deck) :=
  if num_cards = 1 then
    d.draw_one.map fun cd => (DrawResult.one cd.1, cd.2)
  else
    let res := pop_many (min num_cards d.cards.length) d.cards
    some (DrawResult.many res.1, ⟨res.2⟩)

/-- Hand object: its list of cards. -/
structure Hand where
  cards : List Card
deriving DecidableEq

/-- `Hand.add_card`: appends to the held cards. -/
def Hand.add_card (h : Hand) (c : Card) : Hand := ⟨h.cards ++ [c]⟩

/-- `Hand.play_card(index)`: `self.cards.pop(index)`; `none` models the
IndexError on an out-of-range index. -/
def Hand.play_card (h : Hand) (index : Nat) : Option (Card × Hand) :=
  match h.cards.get? index with
  | none => none
  | some c => some (c, ⟨h.cards.eraseIdx index⟩)

/-- `Hand.get_hand_value`: sum of the held cards' values. -/
def Hand.get_hand_value (h : Hand) : Nat :=
  h.cards.foldl (fun value c => value + c.value) 0

/-- PlayerBase fields (`BotPlayer` adds no state of its own). -/
structure PlayerBase where
  name : String
  hand : Hand
  tricks_won : Nat
  bid : Nat
  player_score : Nat
deriving DecidableEq

/-- `random.randint(a, b)` (both ends inclusive) driven by one oracle value
`r`: the result `a + r % (b + 1 - a)` ranges over `[a, b]` exactly. -/
def randint (a b r : Nat) : Nat := a + r % (b + 1 - a)

/-- Python `min` on a list of ints (first minimum; the empty case raises in
Python and is unreachable at the one call site, guarded by `possible_bids`
being nonempty). -/
def list_min : List Nat → Nat
  | [] => 0
  | x :: xs => xs.foldl Nat.min x

/-- Python `max` on a list of ints (see `list_min`). -/
def list_max : List Nat → Nat
  | [] => 0
  | x :: xs => xs.foldl Nat.max x

/-- `BotPlayer.make_bid(max_tricks, total_bids, trump_suit)`: builds
`possible_bids = list(range(max_tricks + 1))`, removes
`max_tricks - total_bids` when `total_bids == max_tricks and max_tricks > 0`,
then sets `self.bid = randint(...)`.  `trump_suit` is accepted and unused,
as in the source; `r` is the oracle value for the one `randint` call. -/
def BotPlayer.make_bid (p : PlayerBase) (max_tricks total_bids : Nat)
    (trump_suit : String) (r : Nat) : PlayerBase :=
  let possible_bids := List.range (max_tricks + 1)
  let possible_bids :=
    if total_bids = max_tricks ∧ 0 < max_tricks then
      possible_bids.erase (max_tricks - total_bids)
    else possible_bids
  let bid :=
    if possible_bids = [] then randint 0 max_tricks r
    else randint (list_min possible_bids) (list_max possible_bids) r
  { p with bid := bid }

/-- Python `min(cards, key=value)` starting from a first element: keeps the
FIRST card of minimal value, replacing only on strictly smaller value. -/
def pickMin : Card → List Card → Card
  | c, [] => c
  | c, x :: xs => pickMin (if x.value < c.value then x else c) xs

/-- Python `max(cards, key=value)`: keeps the FIRST card of maximal value. -/
def pickMax : Card → List Card → Card
  | c, [] => c
  | c, x :: xs => pickMax (if c.value < x.value then x else c) xs

/-- Python truthiness of the `lead_suit` argument (`if lead_suit:`):
`None` and the empty string are falsy. -/
def truthy : Option String → Bool
  | none => false
  | some s => s != ""

/-- The `played_card` selection of `BotPlayer.play_card` for a nonempty hand
`c0 :: rest`: with a truthy lead suit, the lowest follow-suit card, else the
lowest trump-suit card, else the lowest card overall; with no truthy lead
suit, the highest card. -/
def select_play (lead_suit trump_suit : Option String) (c0 : Card) (rest : List Card) :
    Card :=
  if truthy lead_suit then
    match (c0 :: rest).filter (fun c => some c.suit == lead_suit) with
    | f :: fs => pickMin f fs
    | [] =>
      match (c0 :: rest).filter (fun c => some c.suit == trump_suit) with
      | t :: ts => pickMin t ts
      | [] => pickMin c0 rest
  else pickMax c0 rest

/-- `BotPlayer.play_card(lead_suit, trump_suit)`: returns `None` (here
`none`) on an empty hand; otherwise plays `select_play` and removes the
played card from the hand (`list.remove`: first equal element). -/
def BotPlayer.play_card (p : PlayerBase) (lead_suit trump_suit : Option String) :
    Option (Card × PlayerBase) :=
  match p.hand.cards with
  | [] => none
  | c0 :: rest =>
    let played := select_play lead_suit trump_suit c0 rest
    some (played, { p with hand := ⟨(c0 :: rest).erase played⟩ })

/-- The `self.round_info` dict set in `GameState.__init__`: round number
(1..10) to (cards dealt, trump name).  A missing key raises KeyError
(`none`). -/
def round_info (r : Nat) : Option (Nat × String) :=
  if r = 1 then some (10, "Hearts") else
  if r = 2 then some (9, "Clubs") else
  if r = 3 then some (8, "Diamonds") else
  if r = 4 then some (7, "Spades") else
  if r = 5 then some (6, "None") else
  if r = 6 then some (5, "Hearts") else
  if r = 7 then some (4, "Clubs") else
  if r = 8 then some (3, "Diamonds") else
  if r = 9 then some (2, "Spades") else
  if r = 10 then some (1, "None") else none

/-- GameState fields.  `round_info` is the same constant dict on every
instance, so it lives as the top-level function above. -/
structure GameState where
  players : List PlayerBase
  deck : Deck
  round : Nat
  max_rounds : Nat
  trump_suit : Option String

/-- `GameState.__init__(num_players=4)`. -/
def GameState.init (num_players : Nat) : GameState :=
  { players := (List.range num_players).map fun i =>
      { name := "Bot " ++ toString (i + 1), hand := ⟨[]⟩,
        tricks_won := 0, bid := 0, player_score := 0 },
    deck := ⟨Deck.generate_deck⟩,
    round := 1,
    max_rounds := 10,
    trump_suit := none }

/-- `GameState.next_round(players)`: gives every player a fresh empty Hand
and increments the round counter (the Python `players` argument aliases
`self.players`, so the update lands in the state). -/
def GameState.next_round (g : GameState) : GameState :=
  { g with
    players := g.players.map fun p => { p with hand := ⟨[]⟩ },
    round := g.round + 1 }

/-- The `for player in players` loop of `GameState.bidding_phase`:
`total_bid` is initialised to 0 and never modified, and that same value is
passed to every `make_bid` call.  `k` indexes the randint oracle. -/
def bid_iter (max_tricks total_bid : Nat) (trump : String) (rand : Nat → Nat) :
    List PlayerBase → Nat → List PlayerBase × Nat
  | [], k => ([], k)
  | p :: ps, k =>
    let p2 := BotPlayer.make_bid p max_tricks total_bid trump (rand k)
    let res := bid_iter max_tricks total_bid trump rand ps (k + 1)
    (p2 :: res.1, res.2)

/-- `GameState.bidding_phase(players)`: reads max tricks and trump from
`round_info[self.round]` (KeyError = `none`), then lets every player bid in
turn.  No returned bid is inspected, accumulated, or validated, and no
exception is ever raised by the phase itself. -/
def GameState.bidding_phase (g : GameState) (players : List PlayerBase)
    (rand : Nat → Nat) (k : Nat) : Option (List PlayerBase × Nat) :=
  match round_info g.round with
  | none => none
  | some info => some (bid_iter info.1 0 info.2 rand players k)

/-- The non-leading players of `GameState.play_trick`: each plays with the
fixed lead suit; a player whose `play_card` returns `None` is recorded with
`none` and the loop continues (only index 0 dereferences the card). -/
def trick_rest (trump lead : Option String) :
    List PlayerBase → List PlayerBase × List (PlayerBase × Option Card)
  | [] => ([], [])
  | p :: ps =>
    match BotPlayer.play_card p lead trump with
    | none =>
      let res := trick_rest trump lead ps
      (p :: res.1, (p, none) :: res.2)
    | some cp =>
      let res := trick_rest trump lead ps
      (cp.2 :: res.1, (cp.2, some cp.1) :: res.2)

/-- `GameState.play_trick(players)`: the first player plays with
`lead_suit = None` and its card's suit becomes the lead suit (`none` models
the AttributeError of `played_card.suit` when that first `play_card`
returned `None`); the rest follow.  The trick cards are collected but the
winner is never determined and no `tricks_won` is touched. -/
def GameState.play_trick (g : GameState) (players : List PlayerBase) :
    Option (List PlayerBase × List (PlayerBase × Option Card)) :=
  match players with
  | [] => some ([], [])
  | p :: ps =>
    match BotPlayer.play_card p none g.trump_suit with
    | none => none
    | some cp =>
      let res := trick_rest g.trump_suit (some cp.1.suit) ps
      some (cp.2 :: res.1, (cp.2, some cp.1) :: res.2)

/-- The `for _ in range(tricks)` loop of `GameState.play_round`. -/
def trick_iter (g : GameState) : Nat → List PlayerBase → Option (List PlayerBase)
  | 0, ps => some ps
  | Nat.succ t, ps =>
    match g.play_trick ps with
    | none => none
    | some res => trick_iter g t res.1

/-- `GameState.play_round(players)`: plays `round_info[self.round]['cards']`
tricks. -/
def GameState.play_round (g : GameState) (players : List PlayerBase) :
    Option (List PlayerBase) :=
  match round_info g.round with
  | none => none
  | some info => trick_iter g info.1 players

/-- `GameState.determine_trick_winner`: the body is `pass`, so the call
returns `None` whatever the state. -/
def GameState.determine_trick_winner (g : GameState) : Option PlayerBase :=
  none

/-- `GameState.score_round(players)`: `player_score += tricks_won`, plus 10
more when `tricks_won == bid` (`self` is unused by the body). -/
def GameState.score_round (players : List PlayerBase) : List PlayerBase :=
  players.map fun p =>
    let s := p.player_score + p.tricks_won
    { p with player_score := if p.tricks_won = p.bid then s + 10 else s }

/-- The dealing loops of `GameState.get_cards`: one pass hands every player
one card via `deck.draw()` (the single-pop path). -/
def deal_pass : Deck → List PlayerBase → Option (Deck × List PlayerBase)
  | d, [] => some (d, [])
  | d, p :: ps =>
    match d.draw_one with
    | none => none
    | some cd =>
      match deal_pass cd.2 ps with
      | none => none
      | some res => some (res.1, { p with hand := p.hand.add_card cd.1 } :: res.2)

/-- The outer `for _ in range(self.round_info[self.round]['cards'])` loop of
`GameState.get_cards`. -/
def deal_iter : Nat → Deck → List PlayerBase → Option (Deck × List PlayerBase)
  | 0, d, ps => some (d, ps)
  | Nat.succ t, d, ps =>
    match deal_pass d ps with
    | none => none
    | some res => deal_iter t res.1 res.2

/-- `GameState.get_cards(deck, players)`: deals one card per player per pass,
for `round_info[self.round]['cards']` passes. -/
def GameState.get_cards (g : GameState) (deck : Deck) (players : List PlayerBase) :
    Option (Deck × List PlayerBase) :=
  match round_info g.round with
  | none => none
  | some info => deal_iter info.1 deck players

/-- The `while self.round <= self.max_rounds` loop of `GameState.play_game`,
with explicit fuel (the loop advances `round` by exactly 1 per iteration, so
`max_rounds + 1 - round` steps of fuel are exactly enough; running out of
fuel with the guard still true yields `none`, which never happens when
`play_game` supplies the fuel).  Besides the final state it returns the
trace of round numbers the loop body ran for.  `shuffles` is the shuffle
oracle (round number to permutation applied to the fresh deck) and
`rand`/`k` the randint oracle of the bidding phase. -/
def GameState.play_game_aux (shuffles : Nat → List Card → List Card)
    (rand : Nat → Nat) :
    Nat → GameState → Nat → Option (GameState × List Nat)
  | 0, g, _ => if g.round ≤ g.max_rounds then none else some (g, [])
  | Nat.succ fuel, g, k =>
    if g.round ≤ g.max_rounds then
      let g1 := { g with deck := ⟨shuffles g.round Deck.generate_deck⟩ }
      match round_info g1.round with
      | none => none
      | some info =>
        let g2 := { g1 with trump_suit := some info.2 }
        match g2.get_cards g2.deck g2.players with
        | none => none
        | some dp =>
          let g3 := { g2 with deck := dp.1, players := dp.2 }
          match g3.bidding_phase g3.players rand k with
          | none => none
          | some pk =>
            let g4 := { g3 with players := pk.1 }
            match g4.play_round g4.players with
            | none => none
            | some ps3 =>
              let g5 := { g4 with players := GameState.score_round ps3 }
              let g6 := g5.next_round
              match GameState.play_game_aux shuffles rand fuel g6 pk.2 with
              | none => none
              | some res => some (res.1, g.round :: res.2)
    else some (g, [])

/-- `GameState.play_game()` with the randomness oracles made explicit. -/
def GameState.play_game (g : GameState) (shuffles : Nat → List Card → List Card)
    (rand : Nat → Nat) : Option (GameState × List Nat) :=
  GameState.play_game_aux shuffles rand (g.max_rounds + 1 - g.round) g 0

/-- Trump name of a schedule round (1..10), for stating schedule facts. -/
def trumpName (r : Nat) : String :=
  ["Hearts", "Clubs", "Diamonds", "Spades", "None",
   "Hearts", "Clubs", "Diamonds", "Spades", "None"].getD (r - 1) ""

/-- Concrete cards for the concrete test states; each `value` field is the
`RANK_VALUES` entry of its rank. -/
def cardTenS : Card := { rank := "10", suit := "S", value := 10 }

def cardKS : Card := { rank := "K", suit := "S", value := 13 }

def cardAS : Card := { rank := "A", suit := "S", value := 14 }

def cardTwoS : Card := { rank := "2", suit := "S", value := 2 }

def cardTwoH : Card := { rank := "2", suit := "H", value := 2 }

def cardTwoD : Card := { rank := "2", suit := "D", value := 2 }

def cardTwoC : Card := { rank := "2", suit := "C", value := 2 }

/-- A freshly constructed bot holding the given cards. -/
def mkBot (nm : String) (cs : List Card) : PlayerBase :=
  { name := nm, hand := ⟨cs⟩, tricks_won := 0, bid := 0, player_score := 0 }

/-- State for the C1 scenario: trump suit Hearts (as stored by
`play_game`), round 1. -/
def c1state : GameState :=
  { players := [], deck := ⟨[]⟩, round := 1, max_rounds := 10,
    trump_suit := some "Hearts" }

/-- The four players of the spec's trump-wins trick: 10S, KS, 2H, AS. -/
def c1players : List PlayerBase :=
  [mkBot "Bot 1" [cardTenS], mkBot "Bot 2" [cardKS],
   mkBot "Bot 3" [cardTwoH], mkBot "Bot 4" [cardAS]]

/-- State for the C2 scenario: round 6, whose schedule entry is 5 tricks,
trump Hearts. -/
def c2state : GameState :=
  { players := [], deck := ⟨[]⟩, round := 6, max_rounds := 10,
    trump_suit := some "Hearts" }

/-- Four bidders with empty hands (hands are irrelevant to bidding). -/
def c2players : List PlayerBase :=
  [mkBot "Bot 1" [], mkBot "Bot 2" [], mkBot "Bot 3" [], mkBot "Bot 4" []]

/-- Randint oracle making the four bids come out as 1, 1, 1, 2. -/
def c2rand : Nat → Nat := fun k => [1, 1, 1, 2].getD k 0

/-- State for the C3 scenario: round 10, whose schedule entry is 1 trick,
trump name "None". -/
def c3state : GameState :=
  { players := [], deck := ⟨[]⟩, round := 10, max_rounds := 10,
    trump_suit := some "None" }

/-- Four players holding one card each for the single trick of round 10. -/
def c3players : List PlayerBase :=
  [mkBot "Bot 1" [cardAS], mkBot "Bot 2" [cardTwoD],
   mkBot "Bot 3" [cardTwoC], mkBot "Bot 4" [cardTwoH]]

/-- State for the C4 scenario: one player who has just finished a round
with tricks_won = 2, bid = 3 and cumulative score 7. -/
def c4state : GameState :=
  { players := [{ name := "Bot 1", hand := ⟨[]⟩, tricks_won := 2, bid := 3,
                  player_score := 7 }],
    deck := ⟨[]⟩, round := 4, max_rounds := 10, trump_suit := some "Spades" }

/-- Agent that hit its bid exactly: tricks_won = bid = 3, score 0. -/
def c6player1 : PlayerBase :=
  { name := "Bot 1", hand := ⟨[]⟩, tricks_won := 3, bid := 3, player_score := 0 }

/-- Agent that missed its bid: tricks_won = 2, bid = 3, score 0. -/
def c6player2 : PlayerBase :=
  { name := "Bot 2", hand := ⟨[]⟩, tricks_won := 2, bid := 3, player_score := 0 }

/-- Player for the C5 witness: a hand holding only the two of spades. -/
def w5player : PlayerBase := mkBot "Bot 1" [cardTwoS]

/-- State for the C8 witness: round 10 (one card each), a fresh unshuffled
deck, four fresh players. -/
def w8state : GameState :=
  { players := [mkBot "Bot 1" [], mkBot "Bot 2" [], mkBot "Bot 3" [],
                mkBot "Bot 4" []],
    deck := ⟨Deck.generate_deck⟩, round := 10, max_rounds := 10,
    trump_suit := none }

/- ------------------------------------------------------------------ -/
/- Helper lemmas -/
/- ------------------------------------------------------------------ -/

theorem generate_deck_length : Deck.generate_deck.length = 52 := by decide

theorem generate_deck_nodup : Deck.generate_deck.Nodup := by decide

/-- Round numbers past the schedule have no entry. -/
theorem round_info_none {r : Nat} (hc : 11 ≤ r) : round_info r = none := by
  unfold round_info
  repeat rw [if_neg (by omega : ¬ _ = _)]

/-- Inverting a successful schedule lookup: the round is within 1..10, the
dealt-cards entry is `11 - r`, and the trump entry is one of the five
schedule names. -/
theorem round_info_some {r : Nat} {e : Nat × String} (h : round_info r = some e) :
    1 ≤ r ∧ r ≤ 10 ∧ e.1 = 11 - r ∧
      e.2 ∈ ["Hearts", "Clubs", "Diamonds", "Spades", "None"] := by
  have hr : r < 11 := by
    by_contra hc
    push_neg at hc
    rw [round_info_none hc] at h
    exact Option.noConfusion h
  interval_cases r
  · exact Option.noConfusion h
  all_goals
    injection h with he
    refine ⟨by omega, by omega, by rw [← he], by rw [← he]; decide⟩

/-- Evaluating the schedule on a legal round number. -/
theorem round_info_eval (r : Nat) (h1 : 1 ≤ r) (h2 : r ≤ 10) :
    round_info r = some (11 - r, trumpName r) := by
  interval_cases r <;> decide

/-- Lengths of the two components of `pop_many k cs`, and the conservation
equation: the remaining prefix followed by the reverse of the popped cards
is the original list. -/
theorem pop_many_spec :
    ∀ (k : Nat) (cs : List Card), k ≤ cs.length →
      (pop_many k cs).1.length = k ∧
      (pop_many k cs).2 ++ (pop_many k cs).1.reverse = cs := by
  intro k
  induction k with
  | zero => intro cs _; simp [pop_many]
  | succ k ih =>
    intro cs hk
    have hne : cs ≠ [] := by
      intro hnil; rw [hnil] at hk; simp at hk
    have hpop : pop_card cs = some (cs.getLast hne, cs.dropLast) := by
      simp [pop_card, List.getLast?_eq_getLast cs hne]
    have hlen : cs.dropLast.length = cs.length - 1 := List.length_dropLast cs
    obtain ⟨h1, h2⟩ := ih cs.dropLast (by omega)
    simp only [pop_many, hpop]
    constructor
    · simp [h1]
    · simp only [List.reverse_cons]
      rw [← List.append_assoc, h2]
      exact List.dropLast_append_getLast hne

/- ------------------------------------------------------------------ -/
/- Claim theorems -/
/- ------------------------------------------------------------------ -/

/-- C1 (code_bug evidence): on the spec's own trump-wins trick (trump
Hearts; plays 10S lead, KS, 2H, AS) the claim demands that the resolver
return Bot 3 and that Bot 3's tricks_won become 1.  The code's
`determine_trick_winner` body is `pass` (always `None`), `play_trick`
never calls it, and every player leaves the trick with tricks_won still
0. -/
theorem play_trick_ignores_winner :
    GameState.determine_trick_winner c1state = none ∧
    (c1state.play_trick c1players).map (fun res => res.1.map PlayerBase.tricks_won)
      = some [0, 0, 0, 0] :=
  ⟨rfl, by decide⟩

/-- C2 (code_bug evidence): round 6 has max_tricks = 5; with bids 1, 1, 1
already made (summing to 3), the last bidder's bid of 2 makes the total
exactly 5 = max_tricks.  The claim demands the engine track the running
total and reject this bid with IllegalBidError; the code's bidding phase
passes `total_bid = 0` to every bidder, never re-validates any bid, defines
no IllegalBidError, and here accepts the full bid vector [1, 1, 1, 2]. -/
theorem bidding_phase_accepts_hook_bid :
    round_info c2state.round = some (5, "Hearts") ∧
    ((c2state.bidding_phase c2players c2rand 0).map fun res =>
        res.1.map PlayerBase.bid) = some [1, 1, 1, 2] ∧
    ((c2state.bidding_phase c2players c2rand 0).map fun res =>
        (res.1.map PlayerBase.bid).sum) = some 5 := by
  refine ⟨by decide, by decide, by decide⟩

/-- C3 (code_bug evidence): round 10 deals exactly 1 trick; after the
round's trick phase the claim demands the players' tricks_won sum to 1.
The code never increments tricks_won anywhere, so the sum is 0. -/
theorem play_round_records_no_tricks :
    round_info c3state.round = some (1, "None") ∧
    ((c3state.play_round c3players).map fun ps =>
        (ps.map PlayerBase.tricks_won).sum) = some 0 := by
  refine ⟨by decide, by decide⟩

/-- C4 counterexample: a player enters ADVANCE with tricks_won = 2 and
bid = 3; `next_round` clears only the hand and increments the round, so the
claim's conjunct "tricks_won and bid both equal 0 after ADVANCE" fails. -/
theorem next_round_keeps_old_bids :
    ¬ ∀ p ∈ (GameState.next_round c4state).players, p.tricks_won = 0 ∧ p.bid = 0 := by
  decide

/-- C4 (amended): after `next_round`, every agent's hand length is 0, the
round number has increased by exactly 1, and cumulative score is unchanged;
tricks_won and bid are NOT reset — each agent keeps its pre-ADVANCE
values. -/
theorem next_round_spec (g : GameState) :
    (g.next_round.players.map fun p => p.hand.cards.length)
      = g.players.map (fun _ => 0) ∧
    g.next_round.players.map PlayerBase.tricks_won
      = g.players.map PlayerBase.tricks_won ∧
    g.next_round.players.map PlayerBase.bid = g.players.map PlayerBase.bid ∧
    g.next_round.players.map PlayerBase.player_score
      = g.players.map PlayerBase.player_score ∧
    g.next_round.round = g.round + 1 := by
  refine ⟨?_, ?_, ?_, ?_, rfl⟩ <;>
    simp only [GameState.next_round, List.map_map] <;>
    exact List.map_congr_left fun p _ => rfl

/-- C6: `score_round` adds exactly tricks_won to each agent's cumulative
score, plus 10 if and only if tricks_won equals the bid, and touches no
other field; in particular tricks_won = bid = 3 gains 13 and
tricks_won = 2, bid = 3 gains exactly 2. -/
theorem score_round_spec (players : List PlayerBase) :
    (GameState.score_round players).map PlayerBase.player_score
      = players.map (fun p => p.player_score + p.tricks_won +
          if p.tricks_won = p.bid then 10 else 0) ∧
    (GameState.score_round players).map PlayerBase.tricks_won
      = players.map PlayerBase.tricks_won ∧
    (GameState.score_round players).map PlayerBase.bid
      = players.map PlayerBase.bid ∧
    (GameState.score_round players).map PlayerBase.hand
      = players.map PlayerBase.hand ∧
    (GameState.score_round [c6player1]).map PlayerBase.player_score = [13] ∧
    (GameState.score_round [c6player2]).map PlayerBase.player_score = [2] := by
  refine ⟨?_, ?_, ?_, ?_, by decide, by decide⟩
  · simp only [GameState.score_round, List.map_map]
    refine List.map_congr_left fun p _ => ?_
    by_cases h : p.tricks_won = p.bid <;> simp [h]
  all_goals
    simp only [GameState.score_round, List.map_map]
    exact List.map_congr_left fun p _ => rfl

/-- C7 counterexample: the claim says `draw` never errors on exhaustion,
for every requested count including the default single-card draw; but
`draw(1)` on an empty deck executes `self.cards.pop()`, which raises
IndexError (modelled by `none`). -/
theorem draw_one_from_empty_deck : Deck.draw ⟨[]⟩ 1 = none := by decide

/-- C7 (amended): for every count `n ≠ 1`, `draw` removes and returns the
top `min n len` cards — a truncated result, no error — and the deck shrinks
by exactly the number of cards returned; for the single-card path, `draw 1`
returns the top card of a nonempty deck but raises (returns `none`) on an
empty deck. -/
theorem draw_spec (d : Deck) (n : Nat) :
    (n ≠ 1 → ∃ ds rest, Deck.draw d n = some (DrawResult.many ds, ⟨rest⟩) ∧
      ds.length = min n d.cards.length ∧
      rest.length + ds.length = d.cards.length ∧
      rest ++ ds.reverse = d.cards) ∧
    (d.cards = [] → Deck.draw d 1 = none) ∧
    (∀ cs c, d.cards = cs ++ [c] →
      Deck.draw d 1 = some (DrawResult.one c, ⟨cs⟩)) := by
  refine ⟨?_, ?_, ?_⟩
  · intro hn
    obtain ⟨h1, h2⟩ := pop_many_spec (min n d.cards.length) d.cards
      (Nat.min_le_right _ _)
    refine ⟨(pop_many (min n d.cards.length) d.cards).1,
            (pop_many (min n d.cards.length) d.cards).2, ?_, h1, ?_, h2⟩
    · simp [Deck.draw, hn]
    · have hlen := congrArg List.length h2
      simp at hlen
      omega
  · intro hnil
    simp [Deck.draw, Deck.draw_one, pop_card, hnil]
  · intro cs c hcs
    simp [Deck.draw, Deck.draw_one, pop_card, hcs, List.getLast?_concat,
      List.dropLast_concat]

/-- C7 witness: drawing 3 from a 2-card deck truncates to 2 cards and
empties the deck, with no error. -/
theorem draw_spec_witness :
    ∃ ds rest, Deck.draw ⟨[cardTwoS, cardKS]⟩ 3 = some (DrawResult.many ds, ⟨rest⟩) ∧
      ds.length = min 3 (Deck.mk [cardTwoS, cardKS]).cards.length ∧
      rest.length + ds.length = (Deck.mk [cardTwoS, cardKS]).cards.length ∧
      rest ++ ds.reverse = (Deck.mk [cardTwoS, cardKS]).cards :=
  (draw_spec ⟨[cardTwoS, cardKS]⟩ 3).1 (by decide)

/-- C9: `generate_deck` yields exactly 52 cards, each (rank, suit) pair
exactly once, in deterministic suit-major rank-minor order (the card at
index `13 * i + j` is the card built from suit `i` and rank `j`). -/
theorem generate_deck_spec :
    Deck.generate_deck.length = 52 ∧
    (∀ rk ∈ ranks, ∀ st ∈ suits,
      (Deck.generate_deck.map fun c => (c.rank, c.suit)).count (rk, st) = 1) ∧
    (∀ i, i < 4 → ∀ j, j < 13 →
      Deck.generate_deck.get? (13 * i + j)
        = (suits.get? i).bind fun st => (ranks.get? j).bind fun rk =>
            Card.make rk st) := by
  refine ⟨by decide, by decide, by decide⟩

/-- Python `min` keeps an element of the scanned list: `pickMin c xs` is
`c` or one of `xs`. -/
theorem pickMin_mem : ∀ (xs : List Card) (c : Card), pickMin c xs ∈ c :: xs := by
  intro xs
  induction xs with
  | nil => intro c; simp [pickMin]
  | cons x xs ih =>
    intro c
    simp only [pickMin]
    rcases List.mem_cons.mp (ih (if x.value < c.value then x else c)) with h | h
    · rw [h]
      split_ifs <;> simp
    · simp [List.mem_cons, h]

/-- Python `max` keeps an element of the scanned list. -/
theorem pickMax_mem : ∀ (xs : List Card) (c : Card), pickMax c xs ∈ c :: xs := by
  intro xs
  induction xs with
  | nil => intro c; simp [pickMax]
  | cons x xs ih =>
    intro c
    simp only [pickMax]
    rcases List.mem_cons.mp (ih (if c.value < x.value then x else c)) with h | h
    · rw [h]
      split_ifs <;> simp
    · simp [List.mem_cons, h]

/-- The selected card always comes from the hand. -/
theorem select_play_mem (ls ts : Option String) (c0 : Card) (rest : List Card) :
    select_play ls ts c0 rest ∈ c0 :: rest := by
  unfold select_play
  split
  · split
    · next f fs heq =>
      exact List.mem_of_mem_filter (by rw [heq]; exact pickMin_mem fs f)
    · next heq =>
      split
      · next t ts2 heq2 =>
        exact List.mem_of_mem_filter (by rw [heq2]; exact pickMin_mem ts2 t)
      · exact pickMin_mem rest c0
  · exact pickMax_mem rest c0

/-- When the trump filter of `select_play` matches nothing, the trump
argument is irrelevant: the selection equals the no-trump selection. -/
theorem select_play_trump_filter (ls ts : Option String) (c0 : Card) (rest : List Card)
    (h1 : (c0 :: rest).filter (fun c => some c.suit == ts) = []) :
    select_play ls ts c0 rest = select_play ls none c0 rest := by
  have h2 : (c0 :: rest).filter (fun c => some c.suit == (none : Option String)) = [] :=
    List.filter_eq_nil_iff.mpr fun c _ => by simp
  simp only [select_play, h1, h2]

/-- C5: every trump value the schedule can produce ("Hearts", "Clubs",
"Diamonds", "Spades", "None") differs from the one-letter suit field of
every generated card, so the trump filter inside `BotPlayer.play_card`
matches no card of a hand dealt from the deck, and `play_card` behaves
exactly as if there were no trump suit at all. -/
theorem trump_filter_never_matches (r : Nat) (e : Nat × String)
    (hr : round_info r = some e) (p : PlayerBase)
    (hp : ∀ c ∈ p.hand.cards, c.suit ∈ suits) (ls : Option String) :
    (∀ c ∈ Deck.generate_deck, c.suit ≠ e.2) ∧
    p.hand.cards.filter (fun c => some c.suit == some e.2) = [] ∧
    BotPlayer.play_card p ls (some e.2) = BotPlayer.play_card p ls none := by
  have hmem := (round_info_some hr).2.2.2
  have hne : ∀ s ∈ suits, s ≠ e.2 := by
    intro s hs
    simp only [suits, List.mem_cons, List.not_mem_nil, or_false] at hs
    simp only [List.mem_cons, List.not_mem_nil, or_false] at hmem
    rcases hs with h | h | h | h <;>
      rcases hmem with h2 | h2 | h2 | h2 | h2 <;>
        rw [h, h2] <;> decide
  have hgen : ∀ c ∈ Deck.generate_deck, c.suit ∈ suits := by decide
  have hfilter : p.hand.cards.filter (fun c => some c.suit == some e.2) = [] :=
    List.filter_eq_nil_iff.mpr fun c hc => by simp [hne c.suit (hp c hc)]
  refine ⟨fun c hc => hne c.suit (hgen c hc), hfilter, ?_⟩
  rcases hh : p.hand.cards with _ | ⟨c0, rest⟩
  · simp [BotPlayer.play_card, hh]
  · rw [hh] at hfilter
    simp only [BotPlayer.play_card, hh]
    rw [select_play_trump_filter ls (some e.2) c0 rest hfilter]

/-- C5 witness: round 1 (trump "Hearts"), a hand holding only the two of
spades, lead suit "D". -/
theorem trump_filter_never_matches_witness :
    (∀ c ∈ Deck.generate_deck, c.suit ≠ "Hearts") ∧
    w5player.hand.cards.filter (fun c => some c.suit == some "Hearts") = [] ∧
    BotPlayer.play_card w5player (some "D") (some "Hearts")
      = BotPlayer.play_card w5player (some "D") none :=
  trump_filter_never_matches 1 (10, "Hearts") (by decide) w5player (by decide)
    (some "D")

/-- Hands that are all empty contribute no cards. -/
theorem flatMap_hands_nil {ps : List PlayerBase}
    (h : ∀ p ∈ ps, p.hand.cards = []) :
    (ps.flatMap fun p => p.hand.cards) = [] := by
  induction ps with
  | nil => rfl
  | cons p ps ih =>
    simp only [List.flatMap_cons, h p (by simp)]
    exact ih fun q hq => h q (by simp [hq])

/-- One dealing pass: with enough cards in the deck, every player receives
exactly one card (appended to its hand), the deck shrinks by the number of
players, and no card is created or lost. -/
theorem deal_pass_spec :
    ∀ (ps : List PlayerBase) (d : Deck), ps.length ≤ d.cards.length →
      ∃ d2 ps2, deal_pass d ps = some (d2, ps2) ∧
        ps2.length = ps.length ∧
        d2.cards.length = d.cards.length - ps.length ∧
        ps2.map (fun p => p.hand.cards.length)
          = ps.map (fun p => p.hand.cards.length + 1) ∧
        ((ps2.flatMap fun p => p.hand.cards) ++ d2.cards).Perm
          ((ps.flatMap fun p => p.hand.cards) ++ d.cards) := by
  intro ps
  induction ps with
  | nil =>
    intro d _
    exact ⟨d, [], rfl, rfl, by simp, rfl, List.Perm.refl _⟩
  | cons p ps ih =>
    intro d hd
    obtain ⟨dl⟩ := d
    rcases List.eq_nil_or_concat dl with rfl | ⟨cs0, c, rfl⟩
    · simp at hd
    · simp only [List.concat_eq_append] at hd ⊢
      have hdraw : Deck.draw_one ⟨cs0 ++ [c]⟩ = some (c, ⟨cs0⟩) := by
        simp [Deck.draw_one, pop_card, List.getLast?_concat, List.dropLast_concat]
      obtain ⟨d2, ps2, heq, hplen, hdlen, hmap, hperm⟩ :=
        ih ⟨cs0⟩ (by simp at hd ⊢; omega)
      refine ⟨d2, { p with hand := p.hand.add_card c } :: ps2, ?_, ?_, ?_, ?_, ?_⟩
      · simp only [deal_pass, hdraw, heq]
      · simp [hplen]
      · have hdlen2 : d2.cards.length = cs0.length - ps.length := by simpa using hdlen
        have hd2 : ps.length ≤ cs0.length := by simp at hd; omega
        show d2.cards.length = (cs0 ++ [c]).length - (p :: ps).length
        simp only [List.length_append, List.length_cons, List.length_nil]
        omega
      · simp [hmap, Hand.add_card]
      · have hpM : ((ps2.flatMap fun p => p.hand.cards : List Card) : Multiset Card)
              + ((d2.cards : List Card) : Multiset Card)
            = ((ps.flatMap fun p => p.hand.cards : List Card) : Multiset Card)
              + ((cs0 : List Card) : Multiset Card) := by
          rw [Multiset.coe_add, Multiset.coe_add, Multiset.coe_eq_coe]
          exact hperm
        simp only [List.flatMap_cons]
        dsimp only [Hand.add_card]
        rw [← Multiset.coe_eq_coe]
        simp only [← Multiset.coe_add, add_assoc]
        rw [hpM]
        simp [add_comm, add_left_comm, add_assoc]
        exact List.Perm.append_left _ List.perm_middle.symm

/-- Iterated dealing: `t` passes give every player `t` more cards, shrink
the deck by `t * |players|`, and conserve the multiset of cards. -/
theorem deal_iter_spec :
    ∀ (t : Nat) (d : Deck) (ps : List PlayerBase),
      t * ps.length ≤ d.cards.length →
      ∃ d2 ps2, deal_iter t d ps = some (d2, ps2) ∧
        ps2.length = ps.length ∧
        d2.cards.length = d.cards.length - t * ps.length ∧
        ps2.map (fun p => p.hand.cards.length)
          = ps.map (fun p => p.hand.cards.length + t) ∧
        ((ps2.flatMap fun p => p.hand.cards) ++ d2.cards).Perm
          ((ps.flatMap fun p => p.hand.cards) ++ d.cards) := by
  intro t
  induction t with
  | zero =>
    intro d ps _
    exact ⟨d, ps, rfl, rfl, by simp, by simp, List.Perm.refl _⟩
  | succ t ih =>
    intro d ps hle
    have hsplit : (t + 1) * ps.length = t * ps.length + ps.length := by ring
    rw [hsplit] at hle
    have hle1 : ps.length ≤ d.cards.length := by omega
    obtain ⟨d1, ps1, heq1, hplen1, hdlen1, hmap1, hperm1⟩ := deal_pass_spec ps d hle1
    have hle2 : t * ps1.length ≤ d1.cards.length := by
      rw [hplen1, hdlen1]
      omega
    obtain ⟨d2, ps2, heq2, hplen2, hdlen2, hmap2, hperm2⟩ := ih d1 ps1 hle2
    refine ⟨d2, ps2, ?_, ?_, ?_, ?_, hperm2.trans hperm1⟩
    · simp only [deal_iter, heq1, heq2]
    · rw [hplen2, hplen1]
    · rw [hdlen2, hdlen1, hplen1, hsplit]
      omega
    · calc ps2.map (fun p => p.hand.cards.length)
          = ps1.map (fun p => p.hand.cards.length + t) := hmap2
        _ = (ps1.map fun p => p.hand.cards.length).map (· + t) := by
            rw [List.map_map]; rfl
        _ = (ps.map fun p => p.hand.cards.length + 1).map (· + t) := by rw [hmap1]
        _ = ps.map (fun p => p.hand.cards.length + (t + 1)) := by
            rw [List.map_map]
            refine List.map_congr_left fun p _ => ?_
            simp [Function.comp]
            omega

/-- C8: with four empty-handed players and a (shuffled) full deck,
`get_cards` for a scheduled round dealing T cards per player succeeds;
afterwards each player holds exactly T cards, the deck holds exactly
52 - 4*T cards, and the hands together with the remaining deck are exactly
the original 52 distinct cards, with no duplicates. -/
theorem get_cards_spec (g : GameState) (T : Nat) (tr : String)
    (hr : round_info g.round = some (T, tr))
    (hh : ∀ p ∈ g.players, p.hand.cards = [])
    (hA : g.players.length = 4)
    (hd : g.deck.cards.Perm Deck.generate_deck) :
    ∃ d2 ps2, g.get_cards g.deck g.players = some (d2, ps2) ∧
      ps2.length = 4 ∧
      (∀ p ∈ ps2, p.hand.cards.length = T) ∧
      d2.cards.length = 52 - 4 * T ∧
      ((ps2.flatMap fun p => p.hand.cards) ++ d2.cards).Perm Deck.generate_deck ∧
      ((ps2.flatMap fun p => p.hand.cards) ++ d2.cards).Nodup := by
  have hb := round_info_some hr
  have hT : T ≤ 10 := by
    have h1 := hb.1
    have h2 := hb.2.2.1
    simp only at h2
    omega
  have hdl : g.deck.cards.length = 52 := by rw [hd.length_eq, generate_deck_length]
  have hmul : T * g.players.length ≤ g.deck.cards.length := by
    rw [hA, hdl]; omega
  obtain ⟨d2, ps2, heq, hplen, hdlen, hmap, hperm⟩ :=
    deal_iter_spec T g.deck g.players hmul
  have hfm : (g.players.flatMap fun p => p.hand.cards) = [] := flatMap_hands_nil hh
  have hperm2 : ((ps2.flatMap fun p => p.hand.cards) ++ d2.cards).Perm
      Deck.generate_deck :=
    hperm.trans (by rw [hfm]; simpa using hd)
  refine ⟨d2, ps2, ?_, by rw [hplen, hA], ?_, ?_, hperm2,
    hperm2.symm.nodup generate_deck_nodup⟩
  · simp only [GameState.get_cards, hr, heq]
  · intro p hp
    have hmem : p.hand.cards.length ∈ ps2.map fun p => p.hand.cards.length :=
      List.mem_map_of_mem _ hp
    rw [hmap] at hmem
    obtain ⟨q, hq, hv⟩ := List.mem_map.mp hmem
    rw [hh q hq] at hv
    simp at hv
    omega
  · rw [hdlen, hdl, hA]
    omega

/-- C8 witness: round 10 (one card each), the fresh full deck, four fresh
players. -/
theorem get_cards_spec_witness :
    ∃ d2 ps2, w8state.get_cards w8state.deck w8state.players = some (d2, ps2) ∧
      ps2.length = 4 ∧
      (∀ p ∈ ps2, p.hand.cards.length = 1) ∧
      d2.cards.length = 52 - 4 * 1 ∧
      ((ps2.flatMap fun p => p.hand.cards) ++ d2.cards).Perm Deck.generate_deck ∧
      ((ps2.flatMap fun p => p.hand.cards) ++ d2.cards).Nodup :=
  get_cards_spec w8state 1 "None" (by decide) (by decide) rfl (List.Perm.refl _)

/-- A nonempty hand always lets `play_card` succeed, and exactly one card
leaves the hand. -/
theorem play_card_spec (p : PlayerBase) (ls ts : Option String)
    (h : p.hand.cards ≠ []) :
    ∃ c p2, BotPlayer.play_card p ls ts = some (c, p2) ∧
      p2.hand.cards.length + 1 = p.hand.cards.length := by
  rcases hh : p.hand.cards with _ | ⟨c0, rest⟩
  · exact absurd hh h
  · refine ⟨select_play ls ts c0 rest,
      { p with hand := ⟨(c0 :: rest).erase (select_play ls ts c0 rest)⟩ }, ?_, ?_⟩
    · simp only [BotPlayer.play_card, hh]
    · dsimp only
      rw [List.length_erase_of_mem (select_play_mem ls ts c0 rest)]
      simp only [List.length_cons]
      omega

/-- The non-leading players of a trick: when every hand holds `t + 1`
cards, each play succeeds and every hand ends with `t` cards. -/
theorem trick_rest_spec (tr ld : Option String) (t : Nat) :
    ∀ (ps : List PlayerBase), (∀ p ∈ ps, p.hand.cards.length = t + 1) →
      (trick_rest tr ld ps).1.length = ps.length ∧
      ∀ p ∈ (trick_rest tr ld ps).1, p.hand.cards.length = t := by
  intro ps
  induction ps with
  | nil => intro _; exact ⟨rfl, by simp [trick_rest]⟩
  | cons p ps ih =>
    intro h
    have hne : p.hand.cards ≠ [] := by
      have hp := h p (by simp)
      intro hnil
      rw [hnil] at hp
      simp at hp
    obtain ⟨c, p2, heq, hlen⟩ := play_card_spec p ld tr hne
    obtain ⟨ih1, ih2⟩ := ih fun q hq => h q (by simp [hq])
    refine ⟨?_, ?_⟩
    · simp only [trick_rest, heq]
      simp [ih1]
    · simp only [trick_rest, heq]
      intro q hq
      rcases List.mem_cons.mp hq with rfl | hq2
      · have hp := h p (by simp)
        omega
      · exact ih2 q hq2

/-- One whole trick: when every hand holds `t + 1` cards, the trick
completes and every hand ends with `t` cards (the player count is
unchanged). -/
theorem play_trick_spec (g : GameState) (t : Nat) :
    ∀ (ps : List PlayerBase), (∀ p ∈ ps, p.hand.cards.length = t + 1) →
      ∃ res, g.play_trick ps = some res ∧
        res.1.length = ps.length ∧
        ∀ p ∈ res.1, p.hand.cards.length = t := by
  intro ps h
  rcases ps with _ | ⟨p, ps⟩
  · exact ⟨([], []), rfl, rfl, by simp⟩
  · have hne : p.hand.cards ≠ [] := by
      have hp := h p (by simp)
      intro hnil
      rw [hnil] at hp
      simp at hp
    obtain ⟨c, p2, heq, hlen⟩ := play_card_spec p none g.trump_suit hne
    obtain ⟨h1, h2⟩ :=
      trick_rest_spec g.trump_suit (some c.suit) t ps fun q hq => h q (by simp [hq])
    refine ⟨(p2 :: (trick_rest g.trump_suit (some c.suit) ps).1,
            (p2, some c) :: (trick_rest g.trump_suit (some c.suit) ps).2),
      ?_, ?_, ?_⟩
    · simp only [GameState.play_trick, heq]
    · simp [h1]
    · intro q hq
      rcases List.mem_cons.mp hq with rfl | hq2
      · have hp := h p (by simp)
        omega
      · exact h2 q hq2

/-- Iterated tricks: starting with `t`-card hands all `t` tricks complete
and every hand ends empty. -/
theorem trick_iter_spec (g : GameState) :
    ∀ (t : Nat) (ps : List PlayerBase), (∀ p ∈ ps, p.hand.cards.length = t) →
      ∃ ps2, trick_iter g t ps = some ps2 ∧ ps2.length = ps.length ∧
        ∀ p ∈ ps2, p.hand.cards.length = 0 := by
  intro t
  induction t with
  | zero => intro ps h; exact ⟨ps, rfl, rfl, h⟩
  | succ t ih =>
    intro ps h
    obtain ⟨res, heq, hlen, hh⟩ := play_trick_spec g t ps h
    obtain ⟨ps2, heq2, hlen2, hh2⟩ := ih res.1 hh
    refine ⟨ps2, ?_, by rw [hlen2, hlen], hh2⟩
    simp only [trick_iter, heq, heq2]

/-- The bidding loop only writes the `bid` fields: count and hands are
untouched. -/
theorem bid_iter_spec (m tb : Nat) (tr : String) (rand : Nat → Nat) :
    ∀ (ps : List PlayerBase) (k : Nat),
      (bid_iter m tb tr rand ps k).1.length = ps.length ∧
      (bid_iter m tb tr rand ps k).1.map (fun p => p.hand)
        = ps.map (fun p => p.hand) := by
  intro ps
  induction ps with
  | nil => intro k; exact ⟨rfl, rfl⟩
  | cons p ps ih =>
    intro k
    obtain ⟨h1, h2⟩ := ih (k + 1)
    refine ⟨?_, ?_⟩
    · simp [bid_iter, h1]
    · simp only [bid_iter, List.map_cons]
      rw [h2]
      rfl

/-- Transport a hand property along an equality of hand lists. -/
theorem hands_pointwise {ps2 ps : List PlayerBase}
    (h : ps2.map (fun p => p.hand) = ps.map (fun p => p.hand))
    {P : Hand → Prop} (hp : ∀ p ∈ ps, P p.hand) : ∀ p ∈ ps2, P p.hand := by
  intro p hp2
  have hmem : p.hand ∈ ps2.map fun p => p.hand := List.mem_map_of_mem _ hp2
  rw [h] at hmem
  obtain ⟨q, hq, hv⟩ := List.mem_map.mp hmem
  rw [← hv]
  exact hp q hq

/-- The game loop invariant: entering an iteration at round `r` with
`max_rounds = 10`, exactly `11 - r` rounds of fuel, four empty-handed
players, the loop runs the rounds `r, r+1, ..., 10` in order and stops with
the round counter at 11. -/
theorem play_game_aux_spec (shuffles : Nat → List Card → List Card)
    (rand : Nat → Nat)
    (hs : ∀ r, (shuffles r Deck.generate_deck).length = 52) :
    ∀ (fuel : Nat) (g : GameState) (k : Nat),
      g.max_rounds = 10 → g.round + fuel = 11 → 1 ≤ g.round →
      g.players.length = 4 → (∀ p ∈ g.players, p.hand.cards = []) →
      ∃ gf, GameState.play_game_aux shuffles rand fuel g k
          = some (gf, List.range' g.round fuel) ∧ gf.round = 11 := by
  intro fuel
  induction fuel with
  | zero =>
    intro g k hmax hfuel h1 _ _
    have hg : g.round = 11 := by omega
    refine ⟨g, ?_, hg⟩
    simp only [GameState.play_game_aux]
    rw [if_neg (by omega)]
    rfl
  | succ fuel ih =>
    intro g k hmax hfuel h1 hplen hhands
    have hle : g.round ≤ 10 := by omega
    have hri : round_info g.round = some (11 - g.round, trumpName g.round) :=
      round_info_eval g.round h1 hle
    have hmul : (11 - g.round) * g.players.length
        ≤ (Deck.mk (shuffles g.round Deck.generate_deck)).cards.length := by
      show _ ≤ (shuffles g.round Deck.generate_deck).length
      rw [hplen, hs g.round]
      omega
    obtain ⟨d2, ps2, heqD, hplen2, _hdlen2, hmap2, _hperm2⟩ :=
      deal_iter_spec (11 - g.round) ⟨shuffles g.round Deck.generate_deck⟩
        g.players hmul
    have hhl : ∀ p ∈ ps2, p.hand.cards.length = 11 - g.round := by
      intro p hp
      have hmem : p.hand.cards.length ∈ ps2.map fun p => p.hand.cards.length :=
        List.mem_map_of_mem _ hp
      rw [hmap2] at hmem
      obtain ⟨q, hq, hv⟩ := List.mem_map.mp hmem
      rw [hhands q hq] at hv
      simpa using hv.symm
    obtain ⟨hblen, hbmap⟩ :=
      bid_iter_spec (11 - g.round) 0 (trumpName g.round) rand ps2 k
    have hbhands : ∀ p ∈ (bid_iter (11 - g.round) 0 (trumpName g.round) rand ps2 k).1,
        p.hand.cards.length = 11 - g.round :=
      hands_pointwise hbmap (P := fun h => h.cards.length = 11 - g.round) hhl
    obtain ⟨ps3, heqT, hlen3, _hh3⟩ :=
      trick_iter_spec
        { players := (bid_iter (11 - g.round) 0 (trumpName g.round) rand ps2 k).1,
          deck := d2, round := g.round, max_rounds := g.max_rounds,
          trump_suit := some (trumpName g.round) }
        (11 - g.round)
        (bid_iter (11 - g.round) 0 (trumpName g.round) rand ps2 k).1 hbhands
    have hg6max : (10 : Nat) = 10 := rfl
    obtain ⟨gf, heqR, hgf⟩ :=
      ih { players := (GameState.score_round ps3).map fun p => { p with hand := ⟨[]⟩ },
           deck := d2, round := g.round + 1, max_rounds := g.max_rounds,
           trump_suit := some (trumpName g.round) }
        (bid_iter (11 - g.round) 0 (trumpName g.round) rand ps2 k).2
        hmax (by show g.round + 1 + fuel = 11; omega)
        (by show 1 ≤ g.round + 1; omega)
        (by
          show ((GameState.score_round ps3).map fun p => { p with hand := (⟨[]⟩ : Hand) }).length = 4
          rw [List.length_map, GameState.score_round, List.length_map, hlen3,
            hblen, hplen2, hplen])
        (by
          intro p hp
          obtain ⟨q, _, rfl⟩ := List.mem_map.mp hp
          rfl)
    refine ⟨gf, ?_, hgf⟩
    simp only [GameState.play_game_aux]
    rw [if_pos (by omega)]
    simp only [hri, GameState.get_cards, GameState.bidding_phase,
      GameState.play_round, GameState.next_round, heqD, heqT, heqR,
      List.range'_succ]

/-- C10: a game constructed by `GameState.init 4` (round 1, max_rounds 10)
plays exactly the rounds 1 through 10, in order, and then its loop stops
with the round counter at 11: the returned trace of loop iterations is
precisely [1, ..., 10], so no iteration ever runs for round 11 and the
round-11 schedule entry is never consulted. -/
theorem play_game_rounds (shuffles : Nat → List Card → List Card)
    (rand : Nat → Nat)
    (hs : ∀ r, (shuffles r Deck.generate_deck).length = 52) :
    ∃ gf, (GameState.init 4).play_game shuffles rand
        = some (gf, [1, 2, 3, 4, 5, 6, 7, 8, 9, 10]) ∧ gf.round = 11 := by
  have h4 : (GameState.init 4).players.length = 4 := by
    simp [GameState.init]
  have hh : ∀ p ∈ (GameState.init 4).players, p.hand.cards = [] := by
    intro p hp
    simp only [GameState.init, List.mem_map] at hp
    obtain ⟨i, _, rfl⟩ := hp
    rfl
  obtain ⟨gf, heq, hgf⟩ :=
    play_game_aux_spec shuffles rand hs 10 (GameState.init 4) 0 rfl rfl
      (by show (1 : Nat) ≤ 1; omega) h4 hh
  refine ⟨gf, ?_, hgf⟩
  show GameState.play_game_aux shuffles rand
      ((GameState.init 4).max_rounds + 1 - (GameState.init 4).round)
      (GameState.init 4) 0 = _
  rw [show (GameState.init 4).max_rounds + 1 - (GameState.init 4).round = 10 from rfl,
    heq]
  rfl

/-- C10 witness: the identity shuffle and the constant-zero randint
oracle. -/
theorem play_game_rounds_witness :
    ∃ gf, (GameState.init 4).play_game (fun _ cs => cs) (fun _ => 0)
        = some (gf, [1, 2, 3, 4, 5, 6, 7, 8, 9, 10]) ∧ gf.round = 11 :=
  play_game_rounds (fun _ cs => cs) (fun _ => 0) fun _ => generate_deck_length
